import Mathlib

/-!
Verification development for the PriceTracker repository.

Go strings are modelled as `List Char` (rune lists); prices are exact
rationals `ℚ` (the decimal value denoted by the parsed text; the final
rounding of `strconv.ParseFloat` to binary float64 is outside the model).
Fallible operations return `Option`, with `none` standing for the Go
error return.
-/

namespace PriceTracker

/-- Go strings as rune lists. -/
abbrev Str := List Char

/-- Convert a Lean string literal to the rune-list model. -/
def str (s : String) : Str := s.toList

/- ------------------------------------------------------------------
   Price Parser: backend/scraper/scraper.go `ParsePriceString`,
   on top of a model of the decimal fragment of `strconv.ParseFloat`.
   ------------------------------------------------------------------ -/

/-- Value of a digit list read as a base-10 natural number. -/
def digitsToNat (ds : Str) : Nat :=
  ds.foldl (fun a c => 10 * a + (c.toNat - '0'.toNat)) 0

/-- Consume an optional leading sign; returns (isNegative, rest). -/
def parseSign : Str → Bool × Str
  | '-' :: r => (true, r)
  | '+' :: r => (false, r)
  | s => (false, s)

/-- Syntactic decomposition of a decimal float literal: sign, integer
digits, fractional digits (with their count, to keep leading zeros),
exponent sign and exponent digits. -/
structure FloatRep where
  neg : Bool
  intPart : Nat
  fracPart : Nat
  fracLen : Nat
  expNeg : Bool
  exp : Nat
deriving DecidableEq, Repr

/-- Parse the optional exponent suffix after the mantissa. -/
def parseExpPart (neg : Bool) (d1 d2 : Str) : Str → Option FloatRep
  | [] => some ⟨neg, digitsToNat d1, digitsToNat d2, d2.length, false, 0⟩
  | e :: t =>
    if e = 'e' ∨ e = 'E' then
      if (parseSign t).2.takeWhile Char.isDigit = [] ∨
          (parseSign t).2.dropWhile Char.isDigit ≠ [] then none
      else
        some ⟨neg, digitsToNat d1, digitsToNat d2, d2.length, (parseSign t).1,
          digitsToNat ((parseSign t).2.takeWhile Char.isDigit)⟩
    else none

/-- Mantissa-and-exponent phase, after the sign has been consumed. -/
def parseMantissa (neg : Bool) (s1 : Str) : Option FloatRep :=
  match s1.dropWhile Char.isDigit with
  | '.' :: t =>
    if s1.takeWhile Char.isDigit = [] ∧ t.takeWhile Char.isDigit = [] then none
    else
      parseExpPart neg (s1.takeWhile Char.isDigit) (t.takeWhile Char.isDigit)
        (t.dropWhile Char.isDigit)
  | r1 =>
    if s1.takeWhile Char.isDigit = [] then none
    else parseExpPart neg (s1.takeWhile Char.isDigit) [] r1

/-- Syntax phase of the `strconv.ParseFloat` model: accepts
`[+-]? digits [. digits]? ([eE][+-]?digits)?` with at least one mantissa
digit and nothing trailing.  This under-approximates `ParseFloat`'s
acceptance: the special forms `Inf`/`Infinity`/`NaN`, hexadecimal
floats, digit-group underscores, and the `ErrRange` overflow behaviour
on huge exponents are all outside the model, so facts proved here hold
on the decimal fragment only and every theorem below uses it solely on
inputs where the two agree. -/
def parseFloatRep (s : Str) : Option FloatRep :=
  parseMantissa (parseSign s).1 (parseSign s).2

/-- Exact rational value of a parsed decimal literal. -/
def floatVal (r : FloatRep) : ℚ :=
  let m : ℚ := (r.intPart : ℚ) + (r.fracPart : ℚ) / (10 : ℚ) ^ r.fracLen
  let sm : ℚ := if r.neg then -m else m
  if r.expNeg then sm / (10 : ℚ) ^ r.exp else sm * (10 : ℚ) ^ r.exp

/-- Model of `strconv.ParseFloat` restricted to its decimal fragment,
exact in `ℚ` (no float64 rounding, and none of the non-decimal
acceptance cases listed at `parseFloatRep`). -/
def goParseFloat (s : Str) : Option ℚ :=
  (parseFloatRep s).map floatVal

/-- Characters removed by the `strings.NewReplacer` in `ParsePriceString`:
currency glyphs, commas and spaces. -/
def strippedChars : Str := ['$', '€', '£', '₹', ',', ' ']

/-- The cleaning pass of `ParsePriceString` (the replacer). -/
def cleanPrice (s : Str) : Str :=
  s.filter (fun c => ! strippedChars.contains c)

/-- Count occurrences of a character (Go `strings.Count` for a one-rune
separator). -/
def countChar (c : Char) (s : Str) : Nat := (s.filter (· = c)).length

/-- The locale-disambiguation pass of `ParsePriceString`, verbatim from
the source: the European branch fires when the cleaned string has more
than one '.' and contains a ','; the trailing-comma branch when it has a
',' but no '.' and the last ',' sits exactly three runes from the end
(Go: `strings.LastIndex(s, ",") == len(s)-3`). -/
def localeFix (s : Str) : Str :=
  if countChar '.' s > 1 ∧ s.contains ',' then
    (s.filter (· ≠ '.')).map (fun c => if c = ',' then '.' else c)
  else if s.contains ',' ∧ ¬ s.contains '.' then
    if s.reverse.indexOf ',' = 2 then
      s.map (fun c => if c = ',' then '.' else c)
    else s
  else s

/-- Embedding of `ParsePriceString` from backend/scraper/scraper.go:
clean, locale-fix, then parse as a float; `none` models the returned
error. -/
def ParsePriceString (s : Str) : Option ℚ :=
  goParseFloat (localeFix (cleanPrice s))

/- ------------------------------------------------------------------
   Selector Engine: backend/scraper/scraper.go `ScrapePrice`.
   The goquery document is modelled by exactly the observations the
   function makes of it: the `.a-price-whole` matches (each with the
   text of its first `.a-price-fraction` sibling, when one exists) and,
   for every selector string, the list of matched elements with their
   visible text and optional `content` attribute.
   ------------------------------------------------------------------ -/

/-- One element matched by a generic selector: its visible text and its
optional `content` attribute value. -/
structure Elem where
  text : Str
  content : Option Str
deriving DecidableEq, Repr

/-- One `.a-price-whole` match: its text and the text of its first
`.a-price-fraction` sibling, when such a sibling exists. -/
structure CompositeElem where
  wholeText : Str
  fraction : Option Str
deriving DecidableEq, Repr

/-- Abstract HTML document, seen through the queries `ScrapePrice`
performs on it. -/
structure Doc where
  priceWhole : List CompositeElem
  find : Str → List Elem

/-- Go `strings.TrimSpace` (Unicode-space trimming on both ends). -/
def trimSpace (s : Str) : Str :=
  ((s.dropWhile Char.isWhitespace).reverse.dropWhile Char.isWhitespace).reverse

/-- Go `strings.TrimSuffix(s, ".")`: drop one trailing '.' if present. -/
def trimSuffixDot (s : Str) : Str :=
  if s.getLast? = some '.' then s.dropLast else s

/-- The whole-part cleaning of the composite strategy: trim, remove all
commas, drop one trailing dot. -/
def cleanWhole (s : Str) : Str :=
  trimSuffixDot ((trimSpace s).filter (· ≠ ','))

/-- Fraction part of the composite strategy: the trimmed sibling text,
or "00" when the sibling is absent. -/
def fracText : Option Str → Str
  | some f => trimSpace f
  | none => str "00"

/-- The combined `"<whole>.<fraction>"` text of the composite strategy
(`amazonPriceText`), built from the first `.a-price-whole` match. -/
def compositeText (doc : Doc) : Option Str :=
  (doc.priceWhole.head?).map fun c =>
    cleanWhole c.wholeText ++ '.' :: fracText c.fraction

/-- Identifier returned for the composite strategy. -/
def compositeStrategyId : Str := str ".a-price-whole (composite)"

/-- The ordered generic selector list `commonSelectors` from the source. -/
def commonSelectors : List Str :=
  [str ".a-price.a-text-price .a-offscreen",
   str ".a-price-whole",
   str ".a-offscreen",
   str "[itemprop='price']",
   str ".price",
   str ".product-price",
   str ".current-price",
   str "#priceblock_ourprice",
   str "#priceblock_dealprice",
   str ".priceInfo .price .value"]

/-- Text taken from one element in the generic loop: its trimmed visible
text if nonempty, else its trimmed `content` attribute if present and
nonempty, else nothing (the loop moves on). -/
def elemText (e : Elem) : Option Str :=
  if trimSpace e.text ≠ [] then some (trimSpace e.text)
  else
    match e.content with
    | some cv => if trimSpace cv ≠ [] then some (trimSpace cv) else none
    | none => none

/-- The `priceText` produced for one selector: the first element that
yields a text under `elemText` (the `EachWithBreak` loop). -/
def selectorText (doc : Doc) (sel : Str) : Option Str :=
  (doc.find sel).findSome? elemText

/-- The `for _, selector := range commonSelectors` loop: first selector
whose text both exists and parses wins; a parse failure moves on to the
next selector. -/
def tryGeneric (doc : Doc) : List Str → Option (ℚ × Str)
  | [] => none
  | sel :: rest =>
    match selectorText doc sel with
    | some txt =>
      match ParsePriceString txt with
      | some p => some (p, sel)
      | none => tryGeneric doc rest
    | none => tryGeneric doc rest

/-- Embedding of `ScrapePrice` (the document-processing part; the HTTP
fetch and HTML parse failures are prior `none` cases outside this
function): composite Amazon strategy first, then the generic selector
list; `none` models the "could not find or parse price" error. -/
def ScrapePrice (doc : Doc) : Option (ℚ × Str) :=
  match compositeText doc with
  | some txt =>
    if txt ≠ [] then
      match ParsePriceString txt with
      | some p => some (p, compositeStrategyId)
      | none => tryGeneric doc commonSelectors
    else tryGeneric doc commonSelectors
  | none => tryGeneric doc commonSelectors

/-- A strategy of the selector engine: the composite integer+fraction
strategy or one generic selector. -/
inductive Strategy where
  | composite
  | generic (sel : Str)
deriving DecidableEq

/-- The fixed priority order of the strategies. -/
def strategyOrder : List Strategy :=
  .composite :: commonSelectors.map .generic

/-- The text a strategy matches on a document. -/
def strategyMatchedText (doc : Doc) : Strategy → Option Str
  | .composite => compositeText doc
  | .generic sel => selectorText doc sel

/-- The identifier reported for a strategy. -/
def strategyId : Strategy → Str
  | .composite => compositeStrategyId
  | .generic sel => sel

/-- A strategy succeeds when its matched text is nonempty and the price
parser accepts it; the parsed value is the result. -/
def strategyResult (doc : Doc) (st : Strategy) : Option ℚ :=
  match strategyMatchedText doc st with
  | some txt => if txt ≠ [] then ParsePriceString txt else none
  | none => none

/-- First-success scan of a strategy list. -/
def firstStrategyHit (doc : Doc) : List Strategy → Option (ℚ × Str)
  | [] => none
  | st :: rest =>
    match strategyResult doc st with
    | some p => some (p, strategyId st)
    | none => firstStrategyHit doc rest

/- ------------------------------------------------------------------
   Server state: backend/main.go.  `trackingItems` is the Go map
   (modelled as an association list with map-assignment semantics),
   `clients` the WebSocket subscriber set, each with a bounded `send`
   channel (capacity 256) modelled as a queue.  Timestamps are the
   unix-seconds integer fed to the formatting calls.
   ------------------------------------------------------------------ -/

/-- A tracking request / registry record (`TrackingRequest` in main.go). -/
structure TrackingRequest where
  url : Str
  targetPrice : ℚ
  id : Str
deriving DecidableEq, Repr

/-- A broadcast alert (`PriceAlert` in main.go); `timestamp` is the
unix-seconds instant fed to `time.Now().Format`. -/
structure PriceAlert where
  id : Str
  url : Str
  currentPrice : ℚ
  targetPrice : ℚ
  priceString : Str
  timestamp : Int
deriving DecidableEq, Repr

/-- A WebSocket subscriber (`Client`): its buffered `send` channel is a
queue with a fixed capacity (256 in the source). -/
structure Client where
  cid : Nat
  cap : Nat
  queue : List PriceAlert
deriving DecidableEq, Repr

/-- The non-blocking fan-out loop shared by `checkAndNotify` and
`checkPriceHandler`: each client whose channel has room gets the alert
enqueued; a client with a full channel is closed and removed from the
set.  First component: surviving clients (alert delivered); second:
the clients that were closed and deleted. -/
def publish (alert : PriceAlert) : List Client → List Client × List Client
  | [] => ([], [])
  | c :: rest =>
    let (ok, dead) := publish alert rest
    if c.queue.length < c.cap then
      ({ c with queue := c.queue ++ [alert] } :: ok, dead)
    else (ok, c :: dead)

/-- Go map assignment `m[k] = v` on an association list: replace the
binding if the key is present, else append it. -/
def mapSet {α : Type} (m : List (Str × α)) (k : Str) (v : α) : List (Str × α) :=
  match m with
  | [] => [(k, v)]
  | (k', v') :: rest =>
    if k' = k then (k, v) :: rest else (k', v') :: mapSet rest k v

/-- Go map deletion `delete(m, k)` on an association list. -/
def mapDel {α : Type} (m : List (Str × α)) (k : Str) : List (Str × α) :=
  m.filter (fun p => p.1 ≠ k)

/-- Go map read `m[k]` on an association list. -/
def mapGet {α : Type} (m : List (Str × α)) (k : Str) : Option α :=
  match m with
  | [] => none
  | (k', v) :: rest => if k' = k then some v else mapGet rest k

/-- The shared mutable server state: connected clients and the tracked
items map. -/
structure ServerState where
  clients : List Client
  trackingItems : List (Str × TrackingRequest)
deriving DecidableEq, Repr

/-- Response of the track-price endpoint. -/
structure TrackResponse where
  success : Bool
  message : Str
  id : Option Str
deriving DecidableEq, Repr

/-- Embedding of `trackPriceHandler`: reject empty URL, nonpositive
target or empty id without touching the state; otherwise assign
`trackingItems[req.ID] = req` (an unconditional upsert — the source has
no duplicate check) and answer success. -/
def trackPriceHandler (req : TrackingRequest) (st : ServerState) :
    TrackResponse × ServerState :=
  if req.url = [] ∨ req.targetPrice ≤ 0 ∨ req.id = [] then
    (⟨false, str "Invalid URL, target price, or ID", none⟩, st)
  else
    (⟨true, str "Price tracking started", some req.id⟩,
     { st with trackingItems := mapSet st.trackingItems req.id req })

/-- Embedding of `untrackPriceHandler`: unconditional map delete. -/
def untrackPriceHandler (id : Str) (st : ServerState) :
    TrackResponse × ServerState :=
  (⟨true, str "Price tracking stopped", none⟩,
   { st with trackingItems := mapDel st.trackingItems id })

/-- Response of the check-price endpoint. -/
structure PriceCheckResponse where
  currentPrice : ℚ
  targetPrice : ℚ
  isBelowTarget : Bool
  priceString : Str
  success : Bool
  message : Str
deriving DecidableEq, Repr

/-- The temporary alert id of the one-shot path:
`fmt.Sprintf("check-%d", time.Now().Unix())`. -/
def checkTempId (now : Int) : Str := str "check-" ++ (toString now).toList

/-- Embedding of `checkPriceHandler`.  The network scrape is an oracle
argument `scrape` (the `(priceString, price)` pair of a successful
`scrapePrice`, or `none` on failure); `now` is the unix-seconds clock
reading.  On a successful scrape at or below target, a temporary alert
is fanned out to all connected clients; the tracked-items map is never
touched. -/
def checkPriceHandler (req : TrackingRequest) (scrape : Option (Str × ℚ))
    (now : Int) (st : ServerState) : PriceCheckResponse × ServerState :=
  if req.url = [] ∨ req.targetPrice ≤ 0 then
    (⟨0, 0, false, [], false, str "Invalid URL or target price"⟩, st)
  else
    match scrape with
    | none => (⟨0, 0, false, [], false, str "Unable to fetch price"⟩, st)
    | some (ps, p) =>
      let resp : PriceCheckResponse :=
        ⟨p, req.targetPrice, decide (p ≤ req.targetPrice), ps, true,
         str "Price check successful"⟩
      if p ≤ req.targetPrice then
        let alert : PriceAlert :=
          ⟨checkTempId now, req.url, p, req.targetPrice, ps, now⟩
        (resp, { st with clients := (publish alert st.clients).1 })
      else (resp, st)

/-- Embedding of `checkAndNotify` (the per-item check of the monitoring
loop), for one item snapshot `(id, item)` taken at the tick.  `scrape`
is the scrape outcome oracle, `now` the clock.  A price at or below
target publishes an alert to all clients and deletes the id from the
tracked-items map; otherwise the state is untouched. -/
def checkAndNotify (id : Str) (item : TrackingRequest)
    (scrape : Option (Str × ℚ)) (now : Int) (st : ServerState) : ServerState :=
  match scrape with
  | none => st
  | some (ps, p) =>
    if p ≤ item.targetPrice then
      let alert : PriceAlert := ⟨id, item.url, p, item.targetPrice, ps, now⟩
      { st with
        clients := (publish alert st.clients).1,
        trackingItems := mapDel st.trackingItems id }
    else st

/- ------------------------------------------------------------------
   Poll scheduler: backend/main.go `monitorPrices`.  Modelled as a
   transition system: a tick snapshots the registry and spawns one
   asynchronous check per entry; a spawned check later finishes and
   applies the `checkAndNotify` effect.  Nothing in the source joins a
   check before the next tick, so ticks may fire while checks are still
   in flight.
   ------------------------------------------------------------------ -/

/-- Scheduler state: the registry and the in-flight checks (each holds
the item snapshot it was spawned with). -/
structure SchedState where
  reg : List (Str × TrackingRequest)
  inflight : List (Str × TrackingRequest)
deriving DecidableEq, Repr

/-- Registry effect of a finishing check (the `checkAndNotify` effect
restricted to the registry). -/
def applyCheck (e : Str × TrackingRequest) (scrape : Option (Str × ℚ))
    (reg : List (Str × TrackingRequest)) : List (Str × TrackingRequest) :=
  match scrape with
  | none => reg
  | some (_, p) => if p ≤ e.2.targetPrice then mapDel reg e.1 else reg

/-- One scheduler transition: a tick spawns one check per registry
entry (the `for id, item := range trackingItems { go checkAndNotify }`
loop), or some in-flight check finishes with a scrape outcome. -/
inductive SchedStep : SchedState → SchedState → Prop
  | tick (s : SchedState) :
      SchedStep s ⟨s.reg, s.inflight ++ s.reg⟩
  | finish (s : SchedState) (pre post : List (Str × TrackingRequest))
      (e : Str × TrackingRequest) (scrape : Option (Str × ℚ))
      (h : s.inflight = pre ++ e :: post) :
      SchedStep s ⟨applyCheck e scrape s.reg, pre ++ post⟩

/-- Reachability in the scheduler transition system. -/
def SchedReach : SchedState → SchedState → Prop :=
  Relation.ReflTransGen SchedStep

/-- Number of in-flight checks for a given id. -/
def inflightCount (id : Str) (s : SchedState) : Nat :=
  (s.inflight.filter (fun e => e.1 = id)).length

/- ------------------------------------------------------------------
   backend/tracker/tracker.go: the per-tracker monitoring loop
   `StartMonitoring` and the URL truncation helper.
   ------------------------------------------------------------------ -/

/-- The mutable per-tracker state of `Tracker` (notification transport
and channels are outside the model). -/
structure Tracker where
  id : Str
  url : Str
  selector : Str
  thresholdPrice : ℚ
  lastPrice : ℚ
deriving DecidableEq, Repr

/-- Outcome of one scrape attempt inside `StartMonitoring`: the specific
selector worked, or it failed and the general scrape worked (yielding a
possibly new selector), or both failed. -/
inductive ScrapeOutcome where
  | specific (price : ℚ)
  | fallback (price : ℚ) (newSelector : Str)
  | failed
deriving DecidableEq, Repr

/-- The price comparison of one `StartMonitoring` tick: alert when the
price is positive, strictly below the last seen price and at or below
the threshold, then record the price as last seen; a positive
non-alerting price only updates the last seen price.  Returns the
updated tracker and whether a notification was sent.  The source never
removes the tracker here (the `close(t.StopChan)` after an alert is
commented out). -/
def monitorPriceLogic (t : Tracker) (p : ℚ) : Tracker × Bool :=
  if 0 < p ∧ p < t.lastPrice ∧ p ≤ t.thresholdPrice then
    ({ t with lastPrice := p }, true)
  else if 0 < p then
    (if p ≠ t.lastPrice then { t with lastPrice := p } else t, false)
  else (t, false)

/-- One tick of `StartMonitoring`: a failed scrape skips the check; a
fallback scrape first adopts the new selector when it differs and is
nonempty. -/
def monitorTick (t : Tracker) (o : ScrapeOutcome) : Tracker × Bool :=
  match o with
  | .failed => (t, false)
  | .specific p => monitorPriceLogic t p
  | .fallback p sel =>
    let t' := if sel ≠ t.selector ∧ sel ≠ [] then { t with selector := sel } else t
    monitorPriceLogic t' p

/-- Run `StartMonitoring` over a sequence of scrape outcomes, counting
the notifications sent. -/
def runMonitor (t : Tracker) : List ScrapeOutcome → Tracker × Nat
  | [] => (t, 0)
  | o :: rest =>
    let (t', fired) := monitorTick t o
    let (t2, n) := runMonitor t' rest
    (t2, (if fired then 1 else 0) + n)

/-- Embedding of `TruncateURL`: a string short enough is returned
unchanged; otherwise the source slices `urlStr[:maxLen-3]` and appends
"...", which panics when `maxLen-3` is negative — `none` models that
panic.  Go byte indexing coincides with rune indexing on the ASCII
URLs involved. -/
def TruncateURL (urlStr : Str) (maxLen : Int) : Option Str :=
  if urlStr.length ≤ maxLen then some urlStr
  else if maxLen - 3 < 0 then none
  else some (urlStr.take (maxLen - 3).toNat ++ str "...")

/- ==================================================================
   Lemmas about the registry map operations.
   ================================================================== -/

theorem mapGet_mapSet_self {α : Type} (m : List (Str × α)) (k : Str) (v : α) :
    mapGet (mapSet m k v) k = some v := by
  induction m with
  | nil => simp [mapSet, mapGet]
  | cons p rest ih =>
    by_cases h : p.1 = k
    · simp [mapSet, mapGet, h]
    · simpa [mapSet, mapGet, h] using ih

theorem mapGet_mapSet_ne {α : Type} (m : List (Str × α)) (k k' : Str) (v : α)
    (h : k' ≠ k) : mapGet (mapSet m k v) k' = mapGet m k' := by
  induction m with
  | nil => simp [mapSet, mapGet, Ne.symm h]
  | cons p rest ih =>
    by_cases hp : p.1 = k
    · simp [mapSet, mapGet, hp, Ne.symm h]
    · simp [mapSet, mapGet, hp, ih]

theorem mapGet_mapDel_self {α : Type} (m : List (Str × α)) (k : Str) :
    mapGet (mapDel m k) k = none := by
  induction m with
  | nil => simp [mapDel, mapGet]
  | cons p rest ih =>
    by_cases hp : p.1 = k
    · simpa [mapDel, List.filter_cons, hp, mapGet] using ih
    · simpa [mapDel, List.filter_cons, hp, mapGet] using ih

theorem mapGet_mapDel_ne {α : Type} (m : List (Str × α)) (k k' : Str)
    (h : k' ≠ k) : mapGet (mapDel m k) k' = mapGet m k' := by
  induction m with
  | nil => simp [mapDel, mapGet]
  | cons p rest ih =>
    by_cases hp : p.1 = k
    · simpa [mapDel, List.filter_cons, hp, mapGet, Ne.symm h] using ih
    · by_cases hk' : p.1 = k'
      · simp [mapDel, List.filter_cons, hp, mapGet, hk', h]
      · simpa [mapDel, List.filter_cons, hp, mapGet, hk'] using ih

/- ==================================================================
   Lemmas about the alert fan-out.
   ================================================================== -/

/-- When every client has room, `publish` delivers to all of them and
removes nobody. -/
theorem publish_all_room (alert : PriceAlert) (l : List Client)
    (h : ∀ x ∈ l, x.queue.length < x.cap) :
    publish alert l =
      (l.map (fun x => { x with queue := x.queue ++ [alert] }), []) := by
  induction l with
  | nil => simp [publish]
  | cons c rest ih =>
    have hc := h c (List.mem_cons_self c rest)
    have hrest := ih fun x hx => h x (List.mem_cons_of_mem c hx)
    simp [publish, hrest, hc]

/-- A client with room receives the alert. -/
theorem publish_mem_of_room (alert : PriceAlert) (l : List Client) (c : Client)
    (hc : c ∈ l) (hroom : c.queue.length < c.cap) :
    { c with queue := c.queue ++ [alert] } ∈ (publish alert l).1 := by
  induction l with
  | nil => cases hc
  | cons d rest ih =>
    rcases List.mem_cons.mp hc with rfl | hmem
    · simp only [publish]
      rw [if_pos hroom]
      exact List.mem_cons_self _ _
    · simp only [publish]
      split
      · exact List.mem_cons_of_mem _ (ih hmem)
      · exact ih hmem

/- ==================================================================
   Claim C2 — track with a duplicate id.
   ================================================================== -/

/-- A first tracked item used by the C2 scenario. -/
def reqA : TrackingRequest := ⟨str "http://a", 100, str "a"⟩

/-- A second request reusing the id of `reqA` with different fields. -/
def reqB : TrackingRequest := ⟨str "http://b", 50, str "a"⟩

/-- C2, counterexample: with id "a" already tracked at target 100,
`trackPriceHandler` for a second request with the same id and target 50
does not return any duplicate error — it answers success and overwrites
the stored item (its target changes from 100 to 50), so the claim
"returns DuplicateError and the registry state is unchanged" fails. -/
theorem track_duplicate_counterexample :
    mapGet ([(str "a", reqA)]) (str "a") = some reqA ∧
    reqA.targetPrice = 100 ∧
    (trackPriceHandler reqB ⟨[], [(str "a", reqA)]⟩).1.success = true ∧
    mapGet (trackPriceHandler reqB ⟨[], [(str "a", reqA)]⟩).2.trackingItems
      (str "a") = some reqB ∧
    reqB.targetPrice = 50 := by decide

/-- C2, amended: `trackPriceHandler` never reports a duplicate — any
valid request (nonempty url and id, positive target) is answered with
success and upserted into the registry, overwriting an existing item
with the same id and leaving every other id's binding and the client
set untouched; an invalid request leaves the state unchanged. -/
theorem track_upsert (req : TrackingRequest) (st : ServerState)
    (hu : req.url ≠ []) (ht : 0 < req.targetPrice) (hi : req.id ≠ []) :
    (trackPriceHandler req st).1.success = true ∧
    mapGet (trackPriceHandler req st).2.trackingItems req.id = some req ∧
    (∀ k, k ≠ req.id →
      mapGet (trackPriceHandler req st).2.trackingItems k =
        mapGet st.trackingItems k) ∧
    (trackPriceHandler req st).2.clients = st.clients := by
  have hcond : ¬ (req.url = [] ∨ req.targetPrice ≤ 0 ∨ req.id = []) := by
    push_neg
    exact ⟨hu, ht, hi⟩
  refine ⟨?_, ?_, fun k hk => ?_, ?_⟩
  · simp [trackPriceHandler, hcond]
  · simp only [trackPriceHandler, if_neg hcond]
    exact mapGet_mapSet_self _ _ _
  · simp only [trackPriceHandler, if_neg hcond]
    exact mapGet_mapSet_ne _ _ _ _ hk
  · simp [trackPriceHandler, hcond]

/-- C2, witness: the amended theorem applied to the concrete duplicate
scenario of the counterexample. -/
theorem track_upsert_witness :
    (trackPriceHandler reqB ⟨[], [(str "a", reqA)]⟩).1.success = true ∧
    mapGet (trackPriceHandler reqB ⟨[], [(str "a", reqA)]⟩).2.trackingItems
      (str "a") = some reqB :=
  ⟨(track_upsert reqB ⟨[], [(str "a", reqA)]⟩ (by decide) (by decide)
      (by decide)).1,
   (track_upsert reqB ⟨[], [(str "a", reqA)]⟩ (by decide) (by decide)
      (by decide)).2.1⟩

/- ==================================================================
   Claim C7 — publish with one full subscriber.
   ================================================================== -/

/-- C7: when the subscriber set decomposes as `pre ++ c :: post` with
exactly `c`'s queue full and every other queue having room, `publish`
enqueues the alert onto all the other subscribers' queues, in order,
and closes and removes exactly `c`; the publisher's loop is the
non-blocking `select`/`default`, modelled by the total function. -/
theorem publish_drops_only_full (alert : PriceAlert) (pre post : List Client)
    (c : Client) (hfull : c.cap ≤ c.queue.length)
    (hpre : ∀ x ∈ pre, x.queue.length < x.cap)
    (hpost : ∀ x ∈ post, x.queue.length < x.cap) :
    publish alert (pre ++ c :: post) =
      ((pre ++ post).map (fun x => { x with queue := x.queue ++ [alert] }),
       [c]) := by
  induction pre with
  | nil =>
    simp only [List.nil_append, publish, publish_all_room alert post hpost]
    rw [if_neg (not_lt.mpr hfull)]
  | cons d rest ih =>
    have hd := hpre d (List.mem_cons_self d rest)
    have hrest := ih fun x hx => hpre x (List.mem_cons_of_mem d hx)
    simp only [List.cons_append, publish, List.append_eq, hrest, if_pos hd,
      List.map_cons]

/-- C7, witness: three subscribers, the middle one full (capacity 1,
one pending alert), the others with room. -/
theorem publish_drops_only_full_witness :
    publish ⟨str "x", str "u", 1, 2, str "1", 0⟩
      [⟨0, 2, []⟩, ⟨1, 1, [⟨str "old", str "u", 3, 4, str "3", 0⟩]⟩,
       ⟨2, 3, []⟩] =
      ([⟨0, 2, [⟨str "x", str "u", 1, 2, str "1", 0⟩]⟩,
        ⟨2, 3, [⟨str "x", str "u", 1, 2, str "1", 0⟩]⟩],
       [⟨1, 1, [⟨str "old", str "u", 3, 4, str "3", 0⟩]⟩]) :=
  publish_drops_only_full _ [⟨0, 2, []⟩] [⟨2, 3, []⟩]
    ⟨1, 1, [⟨str "old", str "u", 3, 4, str "3", 0⟩]⟩
    (by decide) (by decide) (by decide)

/- ==================================================================
   Claim C9 — TruncateURL.
   ================================================================== -/

/-- C9: a string no longer than `maxLen` is returned unchanged; a
longer string with `maxLen ≥ 3` is truncated to exactly `maxLen` runes
ending in "..."; a longer string with `maxLen < 3` hits the
out-of-range slice `urlStr[:maxLen-3]` (the panic is the `none` case),
so the function is only total under the `maxLen ≥ 3` precondition. -/
theorem truncateURL_spec (urlStr : Str) (maxLen : Int) :
    (urlStr.length ≤ maxLen → TruncateURL urlStr maxLen = some urlStr) ∧
    (maxLen < urlStr.length → 3 ≤ maxLen →
      ∃ r, TruncateURL urlStr maxLen = some r ∧ (r.length : Int) = maxLen ∧
        str "..." <:+ r) ∧
    (maxLen < urlStr.length → maxLen < 3 →
      TruncateURL urlStr maxLen = none) := by
  refine ⟨fun h => ?_, fun hlong h3 => ?_, fun hlong h3 => ?_⟩
  · simp [TruncateURL, h]
  · have h1 : ¬ (urlStr.length : Int) ≤ maxLen := not_le.mpr hlong
    have h2 : ¬ maxLen - 3 < 0 := by omega
    refine ⟨urlStr.take (maxLen - 3).toNat ++ str "...", ?_, ?_, ?_⟩
    · simp [TruncateURL, h1, h2]
    · have htake : (urlStr.take (maxLen - 3).toNat).length =
          (maxLen - 3).toNat := by
        rw [List.length_take]
        omega
      simp only [List.length_append, htake, str]
      have : ("...".toList).length = 3 := by decide
      rw [this]
      omega
    · exact ⟨urlStr.take (maxLen - 3).toNat, rfl⟩
  · have h1 : ¬ (urlStr.length : Int) ≤ maxLen := not_le.mpr hlong
    have h2 : maxLen - 3 < 0 := by omega
    simp [TruncateURL, h1, h2]

/-- C9, witness: an 8-rune URL kept whole at `maxLen = 20`, truncated
to 5 runes at `maxLen = 5`, and hitting the panic case at `maxLen = 2`. -/
theorem truncateURL_spec_witness :
    TruncateURL (str "abcdefgh") 20 = some (str "abcdefgh") ∧
    (∃ r, TruncateURL (str "abcdefgh") 5 = some r ∧ (r.length : Int) = 5 ∧
      str "..." <:+ r) ∧
    TruncateURL (str "abcdefgh") 2 = none :=
  ⟨(truncateURL_spec (str "abcdefgh") 20).1 (by decide),
   (truncateURL_spec (str "abcdefgh") 5).2.1 (by decide) (by decide),
   (truncateURL_spec (str "abcdefgh") 2).2.2 (by decide) (by decide)⟩

/-- An absent key has no binding in the list. -/
theorem mapGet_none_keys {α : Type} (m : List (Str × α)) (k : Str)
    (h : mapGet m k = none) : ∀ e ∈ m, ¬ e.1 = k := by
  induction m with
  | nil => intro e he; cases he
  | cons q rest ih =>
    intro e he
    by_cases hq : q.1 = k
    · simp [mapGet, hq] at h
    · rcases List.mem_cons.mp he with rfl | hmem
      · exact hq
      · exact ih (by simpa [mapGet, hq] using h) e hmem

/-- In a list with pairwise-distinct keys, at most one entry carries a
given key. -/
theorem length_filter_key_le_one {α : Type} (m : List (Str × α)) (id : Str)
    (hnd : (m.map Prod.fst).Nodup) :
    (m.filter (fun e => decide (e.1 = id))).length ≤ 1 := by
  induction m with
  | nil => simp
  | cons q rest ih =>
    rw [List.map_cons, List.nodup_cons] at hnd
    have hnd' := hnd
    by_cases hq : q.1 = id
    · have hnil : rest.filter (fun e => decide (e.1 = id)) = [] := by
        rw [List.filter_eq_nil_iff]
        intro e he
        simp only [decide_eq_true_eq]
        intro heq
        have hmem : e.1 ∈ rest.map Prod.fst := List.mem_map_of_mem Prod.fst he
        rw [heq, ← hq] at hmem
        exact hnd'.1 hmem
      simp [List.filter_cons, hq, hnil]
    · simpa [List.filter_cons, hq] using ih hnd'.2

/- ==================================================================
   Claim C10 — one-shot check: alert broadcast, registry untouched.
   ================================================================== -/

/-- C10: `checkPriceHandler` never touches the tracked-items map (the
one-shot path never inserts the checked URL), and for a valid request
whose scrape succeeds at or below target it fans the temporary alert
with id `check-<unix seconds>` out to the connected clients: the client
set becomes exactly the publish result, and every client with queue
room receives the alert. -/
theorem checkPrice_oneshot :
    (∀ (req : TrackingRequest) (scrape : Option (Str × ℚ)) (now : Int)
        (st : ServerState),
      (checkPriceHandler req scrape now st).2.trackingItems =
        st.trackingItems) ∧
    (∀ (req : TrackingRequest) (ps : Str) (p : ℚ) (now : Int)
        (st : ServerState), req.url ≠ [] → 0 < req.targetPrice →
        p ≤ req.targetPrice →
      (checkPriceHandler req (some (ps, p)) now st).2.clients =
        (publish ⟨checkTempId now, req.url, p, req.targetPrice, ps, now⟩
          st.clients).1 ∧
      ∀ c ∈ st.clients, c.queue.length < c.cap →
        { c with queue :=
            c.queue ++ [⟨checkTempId now, req.url, p, req.targetPrice, ps,
              now⟩] } ∈
          (checkPriceHandler req (some (ps, p)) now st).2.clients) := by
  constructor
  · intro req scrape now st
    unfold checkPriceHandler
    split
    · rfl
    · match scrape with
      | none => rfl
      | some (ps, p) =>
        dsimp only
        split <;> rfl
  · intro req ps p now st hu ht hcross
    have hcond : ¬ (req.url = [] ∨ req.targetPrice ≤ 0) := by
      push_neg
      exact ⟨hu, ht⟩
    have hstate : (checkPriceHandler req (some (ps, p)) now st).2.clients =
        (publish ⟨checkTempId now, req.url, p, req.targetPrice, ps, now⟩
          st.clients).1 := by
      simp only [checkPriceHandler, if_neg hcond, if_pos hcross]
    refine ⟨hstate, fun c hc hroom => ?_⟩
    rw [hstate]
    exact publish_mem_of_room _ _ _ hc hroom

/-- C10, witness: a scrape at 95 against target 100 broadcasts the
temporary alert to the one connected client (which has room) and leaves
the single tracked item in place. -/
theorem checkPrice_oneshot_witness :
    (checkPriceHandler ⟨str "http://a", 100, str "x"⟩ (some (str "95", 95))
        1700000000 ⟨[⟨0, 2, []⟩], [(str "t", reqA)]⟩).2.trackingItems =
      [(str "t", reqA)] ∧
    (⟨0, 2, [⟨checkTempId 1700000000, str "http://a", 95, 100, str "95",
        1700000000⟩]⟩ : Client) ∈
      (checkPriceHandler ⟨str "http://a", 100, str "x"⟩ (some (str "95", 95))
        1700000000 ⟨[⟨0, 2, []⟩], [(str "t", reqA)]⟩).2.clients :=
  ⟨checkPrice_oneshot.1 ⟨str "http://a", 100, str "x"⟩ (some (str "95", 95))
      1700000000 ⟨[⟨0, 2, []⟩], [(str "t", reqA)]⟩,
   (checkPrice_oneshot.2 ⟨str "http://a", 100, str "x"⟩ (str "95") 95
      1700000000 ⟨[⟨0, 2, []⟩], [(str "t", reqA)]⟩ (by decide) (by decide)
      (by decide)).2 ⟨0, 2, []⟩ (by decide) (by decide)⟩

/- ==================================================================
   Claim C1 — threshold crossing reported exactly once.
   ================================================================== -/

/-- A tracker with threshold 60 and no price seen yet, for the C1
counterexample. -/
def trackerC1 : Tracker := ⟨str "item1", str "http://x", [], 60, 0⟩

/-- C1, counterexample: in the `StartMonitoring` loop of
backend/tracker/tracker.go (a cited source of the claim) the item is
never removed after an alert; over the price sequence 100, 50, 70, 50
with threshold 60 the loop fires twice — a later crossing observation
does produce a further alert, refuting "exactly once". -/
theorem startMonitoring_refires :
    (runMonitor trackerC1
      [.specific 100, .specific 50, .specific 70, .specific 50]).2 = 2 := by
  decide

/-- C1, amended: in the `checkAndNotify` path of backend/main.go the
crossing call itself removes the id and publishes the alert in the same
step, and a scheduler tick adds no check for an id absent from the
registry, so that path cannot re-select a crossed id; the
`StartMonitoring` path of backend/tracker keeps the item and only
suppresses repeats until the price rises above the last seen price, so
"exactly once" holds only for the `checkAndNotify` path and only while
checks do not overlap. -/
theorem checkAndNotify_crossing_once (id : Str) (item : TrackingRequest)
    (ps : Str) (p : ℚ) (now : Int) (st : ServerState)
    (hcross : p ≤ item.targetPrice) :
    mapGet (checkAndNotify id item (some (ps, p)) now st).trackingItems id =
      none ∧
    (checkAndNotify id item (some (ps, p)) now st).clients =
      (publish ⟨id, item.url, p, item.targetPrice, ps, now⟩ st.clients).1 ∧
    (∀ (s : SchedState) (tid : Str), mapGet s.reg tid = none →
      inflightCount tid ⟨s.reg, s.inflight ++ s.reg⟩ =
        inflightCount tid s) := by
  refine ⟨?_, ?_, fun s tid hab => ?_⟩
  · simp only [checkAndNotify, if_pos hcross]
    exact mapGet_mapDel_self _ _
  · simp only [checkAndNotify, if_pos hcross]
  · simp only [inflightCount, List.filter_append]
    have : s.reg.filter (fun e => decide (e.1 = tid)) = [] := by
      rw [List.filter_eq_nil_iff]
      intro e he
      simpa using mapGet_none_keys s.reg tid hab e he
    simp [this]

/-- C1, witness: a crossing check at price 50 against target 60 removes
the item "a" and delivers the alert state; a tick from a registry
without "a" adds no check for "a". -/
theorem checkAndNotify_crossing_once_witness :
    mapGet (checkAndNotify (str "a") ⟨str "http://a", 60, str "a"⟩
      (some (str "50", 50)) 0
      ⟨[⟨0, 2, []⟩], [(str "a", ⟨str "http://a", 60, str "a"⟩)]⟩).trackingItems
      (str "a") = none ∧
    inflightCount (str "a")
      ⟨[(str "b", reqA)], [] ++ [(str "b", reqA)]⟩ =
      inflightCount (str "a") ⟨[(str "b", reqA)], []⟩ :=
  ⟨(checkAndNotify_crossing_once (str "a") ⟨str "http://a", 60, str "a"⟩
      (str "50") 50 0 ⟨[⟨0, 2, []⟩], [(str "a", ⟨str "http://a", 60, str "a"⟩)]⟩
      (by decide)).1,
   (checkAndNotify_crossing_once (str "a") ⟨str "http://a", 60, str "a"⟩
      (str "50") 50 0 ⟨[⟨0, 2, []⟩], [(str "a", ⟨str "http://a", 60, str "a"⟩)]⟩
      (by decide)).2.2 ⟨[(str "b", reqA)], []⟩ (str "a") (by decide)⟩

/- ==================================================================
   Claim C8 — at most one in-flight check per id.
   ================================================================== -/

/-- The registry with the single item "a" used in the C8 scenario. -/
def regA : List (Str × TrackingRequest) :=
  [(str "a", ⟨str "http://a", 100, str "a"⟩)]

/-- The scheduler start state for the C8 scenario. -/
def schedA : SchedState := ⟨regA, []⟩

/-- C8, counterexample: nothing joins a check before the next tick, so
two consecutive ticks (the second firing while the first check is
still in flight, as happens whenever a check outlasts the interval)
reach a scheduler state with two simultaneous in-flight checks for id
"a" — refuting "at most one in-flight check per item id at any time". -/
theorem sched_overlap_counterexample :
    SchedReach schedA ⟨regA, ([] ++ regA) ++ regA⟩ ∧
    inflightCount (str "a") ⟨regA, ([] ++ regA) ++ regA⟩ = 2 :=
  ⟨Relation.ReflTransGen.tail
      (Relation.ReflTransGen.single (SchedStep.tick schedA))
      (SchedStep.tick ⟨regA, [] ++ regA⟩),
   by decide⟩

/-- C8, amended: a single tick adds at most one new check per id (the
registry map has unique keys, so the snapshot enumerates each id once);
overlap arises only across successive ticks, which the source does not
prevent. -/
theorem tick_adds_at_most_one (s : SchedState) (id : Str)
    (hnd : (s.reg.map Prod.fst).Nodup) :
    inflightCount id ⟨s.reg, s.inflight ++ s.reg⟩ ≤
      inflightCount id s + 1 := by
  simp only [inflightCount, List.filter_append, List.length_append]
  have hle := length_filter_key_le_one s.reg id hnd
  omega

/-- C8, witness: the amended bound applied to the one-item registry
after a tick with one check already in flight. -/
theorem tick_adds_at_most_one_witness :
    inflightCount (str "a") ⟨regA, regA ++ regA⟩ ≤
      inflightCount (str "a") ⟨regA, regA⟩ + 1 :=
  tick_adds_at_most_one ⟨regA, regA⟩ (str "a") (by decide)

/- ==================================================================
   Lemmas about the price parser.
   ================================================================== -/

/-- Unfold a successful parse through its syntactic representation. -/
theorem parsePrice_of_rep {s t : Str} {r : FloatRep}
    (h1 : localeFix (cleanPrice s) = t) (h2 : parseFloatRep t = some r) :
    ParsePriceString s = some (floatVal r) := by
  simp [ParsePriceString, goParseFloat, h1, h2]

/-- Concrete-evaluation form of `parsePrice_of_rep`. -/
theorem parsePrice_concrete {s t : Str} {r : FloatRep} {q : ℚ}
    (h1 : localeFix (cleanPrice s) = t) (h2 : parseFloatRep t = some r)
    (h3 : floatVal r = q) : ParsePriceString s = some q := by
  rw [parsePrice_of_rep h1 h2, h3]

/-- The parsed representation carries the sign the scanner consumed. -/
theorem parseExpPart_neg {neg : Bool} {d1 d2 x : Str} {r : FloatRep}
    (h : parseExpPart neg d1 d2 x = some r) : r.neg = neg := by
  cases x with
  | nil =>
    simp only [parseExpPart] at h
    cases h
    rfl
  | cons e t =>
    simp only [parseExpPart] at h
    split at h
    · split at h
      · cases h
      · cases h
        rfl
    · cases h

/-- The mantissa phase passes the sign through unchanged. -/
theorem parseMantissa_neg {neg : Bool} {s1 : Str} {r : FloatRep}
    (h : parseMantissa neg s1 = some r) : r.neg = neg := by
  unfold parseMantissa at h
  split at h
  · split at h
    · cases h
    · exact parseExpPart_neg h
  · split at h
    · cases h
    · exact parseExpPart_neg h

/-- The sign scanner reports negative exactly on a leading '-'. -/
theorem parseSign_true_head {t : Str} (h : (parseSign t).1 = true) :
    t.head? = some '-' := by
  unfold parseSign at h
  split at h
  · rfl
  · exact absurd h (by simp)
  · exact absurd h (by simp)

/-- With the sign flag clear, the parsed value is nonnegative. -/
theorem floatVal_nonneg_of_not_neg {r : FloatRep} (hneg : r.neg = false) :
    0 ≤ floatVal r := by
  unfold floatVal
  dsimp only
  rw [hneg, if_neg Bool.false_ne_true]
  split
  · positivity
  · positivity

/-- A negative value can only come from a representation whose sign
flag is set. -/
theorem floatVal_neg_of_lt {r : FloatRep} (h : floatVal r < 0) :
    r.neg = true := by
  by_contra hneg
  rw [Bool.not_eq_true] at hneg
  exact absurd h (not_lt.mpr (floatVal_nonneg_of_not_neg hneg))

/- ==================================================================
   Claim C3 — locale-consistent parsing; the European swap.
   ================================================================== -/

/-- C3: the claimed European-format recovery fails on the code.  The
replacer removes every ',' before the European check runs, so the
cleaned string can never satisfy "more than one '.' and at least one
','" — the swap branch is dead code, contradicting the comment above it
in the source — and `"1.234,56"` parses to 1.23456 instead of the
claimed 1234.56 (while `"60,100"` → 60100 and `"29.99"` → 29.99 do
hold). -/
theorem parse_european_swap_dead :
    ParsePriceString (str "1.234,56") = some (123456/100000 : ℚ) ∧
    (123456/100000 : ℚ) < 1234.56 ∧
    (∀ s : Str, ((cleanPrice s).contains ',') = false) ∧
    ParsePriceString (str "60,100") = some (60100 : ℚ) ∧
    ParsePriceString (str "29.99") = some (2999/100 : ℚ) := by
  refine ⟨?_, by norm_num, fun s => ?_, ?_, ?_⟩
  · exact parsePrice_concrete (t := str "1.23456")
      (r := ⟨false, 1, 23456, 5, false, 0⟩) (by decide) (by decide)
      (by norm_num [floatVal])
  · have hmem : ¬ (',' ∈ cleanPrice s) := fun hmem => by
      have h2 := (List.mem_filter.mp hmem).2
      simp [strippedChars] at h2
    simpa using hmem
  · exact parsePrice_concrete (t := str "60100")
      (r := ⟨false, 60100, 0, 0, false, 0⟩) (by decide) (by decide)
      (by norm_num [floatVal])
  · exact parsePrice_concrete (t := str "29.99")
      (r := ⟨false, 29, 99, 2, false, 0⟩) (by decide) (by decide)
      (by norm_num [floatVal])

/- ==================================================================
   Claim C4 — ParseError on invalid or negative input.
   ================================================================== -/

/-- C4, counterexample: the source never checks the sign, so the
negative input "-5" parses successfully to the negative value -5 —
refuting "parse returns ParseError … for negative numbers (it never
returns a negative value as a success)". -/
theorem parse_negative_counterexample :
    ParsePriceString (str "-5") = some (-5 : ℚ) ∧ (-5 : ℚ) < 0 := by
  refine ⟨?_, by norm_num⟩
  exact parsePrice_concrete (t := str "-5") (r := ⟨true, 5, 0, 0, false, 0⟩)
    (by decide) (by decide) (by norm_num [floatVal])

/-- C4, amended: the parser applies no sign check at all — a negative
decimal parses successfully and its negative value is returned (e.g.
"-12.50" → -12.5) — and a negative success arises exactly from a
leading '-' on the cleaned, locale-fixed string; the claimed
ParseError-on-invalid guarantee is dropped, since `strconv.ParseFloat`
also accepts non-decimal forms such as `Inf`/`NaN`, hexadecimal floats
and underscored digits. -/
theorem parse_negative_sign :
    (∀ (s : Str) (v : ℚ), ParsePriceString s = some v → v < 0 →
      (localeFix (cleanPrice s)).head? = some '-') ∧
    ParsePriceString (str "-12.50") = some (-25/2 : ℚ) ∧
    (-25/2 : ℚ) < 0 := by
  refine ⟨?_, ?_, by norm_num⟩
  · intro s v h hvneg
    unfold ParsePriceString goParseFloat at h
    cases hrep : parseFloatRep (localeFix (cleanPrice s)) with
    | none => rw [hrep] at h; cases h
    | some r =>
      rw [hrep] at h
      have hv : floatVal r = v := by simpa using h
      have hrneg : r.neg = true := floatVal_neg_of_lt (hv ▸ hvneg)
      have hm : r.neg = (parseSign (localeFix (cleanPrice s))).1 := by
        unfold parseFloatRep at hrep
        exact parseMantissa_neg hrep
      exact parseSign_true_head (hm ▸ hrneg)
  · exact parsePrice_concrete (t := str "-12.50")
      (r := ⟨true, 12, 50, 2, false, 0⟩) (by decide) (by decide)
      (by norm_num [floatVal])

/-- C4, witness: the amended theorem applied at the concrete negative
input "-12.50", discharging its hypotheses with the theorem's own
computed parse. -/
theorem parse_negative_sign_witness :
    (localeFix (cleanPrice (str "-12.50"))).head? = some '-' :=
  parse_negative_sign.1 (str "-12.50") (-25/2) parse_negative_sign.2.1
    parse_negative_sign.2.2

/- ==================================================================
   Lemmas about the selector engine.
   ================================================================== -/

/-- An element never yields an empty text. -/
theorem elemText_ne_nil {e : Elem} {t : Str} (h : elemText e = some t) :
    t ≠ [] := by
  unfold elemText at h
  split at h
  · rename_i hne
    cases h
    exact hne
  · split at h
    · rename_i cv
      split at h
      · rename_i hcv
        cases h
        exact hcv
      · cases h
    · cases h

/-- A selector never yields an empty text. -/
theorem selectorText_ne_nil {doc : Doc} {sel t : Str}
    (h : selectorText doc sel = some t) : t ≠ [] := by
  obtain ⟨e, -, he⟩ := List.exists_of_findSome?_eq_some h
  exact elemText_ne_nil he

/-- The composite strategy never yields an empty text. -/
theorem compositeText_ne_nil {doc : Doc} {t : Str}
    (h : compositeText doc = some t) : t ≠ [] := by
  unfold compositeText at h
  cases hh : doc.priceWhole.head? with
  | none => rw [hh] at h; cases h
  | some c =>
    rw [hh] at h
    cases h
    cases hcw : cleanWhole c.wholeText <;> simp

/-- The generic selector loop is the first-success scan over the
generic strategies. -/
theorem tryGeneric_eq_firstHit (doc : Doc) (sels : List Str) :
    tryGeneric doc sels = firstStrategyHit doc (sels.map .generic) := by
  induction sels with
  | nil => rfl
  | cons sel rest ih =>
    simp only [tryGeneric, List.map_cons, firstStrategyHit, strategyResult,
      strategyMatchedText, strategyId]
    cases hsel : selectorText doc sel with
    | none => exact ih
    | some txt =>
      dsimp only
      rw [if_pos (selectorText_ne_nil hsel)]
      cases ParsePriceString txt with
      | none => exact ih
      | some p => rfl

/-- One-step unfolding of the first-success scan. -/
theorem firstStrategyHit_cons (doc : Doc) (st : Strategy)
    (rest : List Strategy) :
    firstStrategyHit doc (st :: rest) =
      match strategyResult doc st with
      | some p => some (p, strategyId st)
      | none => firstStrategyHit doc rest := rfl

/-- `ScrapePrice` is the first-success scan over the full strategy
order. -/
theorem scrapePrice_eq_firstHit (doc : Doc) :
    ScrapePrice doc = firstStrategyHit doc strategyOrder := by
  unfold strategyOrder
  rw [firstStrategyHit_cons, ← tryGeneric_eq_firstHit]
  unfold ScrapePrice strategyResult strategyMatchedText strategyId
  cases hc : compositeText doc with
  | none => rfl
  | some txt =>
    dsimp only
    have hne := compositeText_ne_nil hc
    rw [if_pos hne, if_pos hne]

/-- Strategies that all fail are skipped by the scan. -/
theorem firstHit_append_none (doc : Doc) (pre l : List Strategy)
    (h : ∀ st ∈ pre, strategyResult doc st = none) :
    firstStrategyHit doc (pre ++ l) = firstStrategyHit doc l := by
  induction pre with
  | nil => rfl
  | cons st rest ih =>
    have hst := h st (List.mem_cons_self st rest)
    simp only [List.cons_append, firstStrategyHit, hst]
    exact ih fun st' hst' => h st' (List.mem_cons_of_mem st hst')

/- ==================================================================
   Claim C5 — fixed priority order, first success wins.
   ================================================================== -/

/-- C5: a strategy succeeds exactly when its matched text is nonempty
and the price parser accepts it, and whenever the strategy order splits
as `pre ++ st :: post` with every strategy in `pre` failing and `st`
succeeding with value `v`, `ScrapePrice` returns `v` tagged with `st`'s
identifier — the earliest success, never a later one. -/
theorem scrape_first_priority :
    (∀ (doc : Doc) (st : Strategy), (strategyResult doc st).isSome ↔
      ∃ t, strategyMatchedText doc st = some t ∧ t ≠ [] ∧
        (ParsePriceString t).isSome) ∧
    (∀ (doc : Doc) (pre : List Strategy) (st : Strategy)
        (post : List Strategy) (v : ℚ),
      strategyOrder = pre ++ st :: post →
      (∀ st' ∈ pre, strategyResult doc st' = none) →
      strategyResult doc st = some v →
      ScrapePrice doc = some (v, strategyId st)) := by
  constructor
  · intro doc st
    unfold strategyResult
    cases hm : strategyMatchedText doc st with
    | none => simp
    | some txt =>
      dsimp only
      by_cases ht : txt = []
      · subst ht
        simp
      · rw [if_pos ht]
        constructor
        · intro hs
          exact ⟨txt, rfl, ht, hs⟩
        · rintro ⟨t, heq, -, hp⟩
          cases heq
          exact hp
  · intro doc pre st post v horder hpre hres
    rw [scrapePrice_eq_firstHit, horder, firstHit_append_none doc pre _ hpre]
    simp only [firstStrategyHit, hres]

/-- The document used in the C5 witness: no composite match, and the
first generic selector carries the text "29.99". -/
def docGeneric : Doc :=
  ⟨[], fun sel =>
    if sel = str ".a-price.a-text-price .a-offscreen" then
      [⟨str "29.99", none⟩]
    else []⟩

/-- C5, witness: on `docGeneric` the composite strategy fails and the
first generic selector wins with 29.99. -/
theorem scrape_first_priority_witness :
    ScrapePrice docGeneric =
      some (2999/100, str ".a-price.a-text-price .a-offscreen") :=
  scrape_first_priority.2 docGeneric [.composite]
    (.generic (str ".a-price.a-text-price .a-offscreen"))
    ((commonSelectors.drop 1).map .generic) (2999/100) rfl
    (fun st' hst' => by
      rcases List.mem_singleton.mp hst' with rfl
      rfl)
    (by
      have hp : ParsePriceString (str "29.99") = some (2999/100 : ℚ) :=
        parsePrice_concrete (t := str "29.99")
          (r := ⟨false, 29, 99, 2, false, 0⟩) (by decide) (by decide)
          (by norm_num [floatVal])
      have hsel : strategyMatchedText docGeneric
          (.generic (str ".a-price.a-text-price .a-offscreen")) =
          some (str "29.99") := by decide
      unfold strategyResult
      rw [hsel]
      dsimp only
      rw [if_pos (by decide), hp])

/- ==================================================================
   Claim C6 — the composite integer+fraction combination.
   ================================================================== -/

/-- The composite-only document with whole "1,234" and fraction "99". -/
def docComp99 : Doc := ⟨[⟨str "1,234", some (str "99")⟩], fun _ => []⟩

/-- The composite-only document with whole "1,234" and no fraction
sibling. -/
def docCompNoFrac : Doc := ⟨[⟨str "1,234", none⟩], fun _ => []⟩

/-- C6: whenever the composite strategy matches (a `.a-price-whole`
element exists), the scraped text is the cleaned whole digits joined
with the sibling fraction (or "00" when absent) as
`"<whole>.<fraction>"`, and if the parser accepts it `ScrapePrice`
returns that value with the composite identifier; in particular whole
"1,234" with fraction "99" yields 1234.99 and whole "1,234" without a
fraction sibling yields 1234.00. -/
theorem scrape_composite_combine :
    (∀ (doc : Doc) (c : CompositeElem) (p : ℚ),
      doc.priceWhole.head? = some c →
      ParsePriceString (cleanWhole c.wholeText ++ '.' :: fracText c.fraction) =
        some p →
      ScrapePrice doc = some (p, compositeStrategyId)) ∧
    ScrapePrice docComp99 = some (123499/100, compositeStrategyId) ∧
    ScrapePrice docCompNoFrac = some (1234, compositeStrategyId) := by
  have main : ∀ (doc : Doc) (c : CompositeElem) (p : ℚ),
      doc.priceWhole.head? = some c →
      ParsePriceString (cleanWhole c.wholeText ++ '.' :: fracText c.fraction) =
        some p →
      ScrapePrice doc = some (p, compositeStrategyId) := by
    intro doc c p hh hp
    have hct : compositeText doc =
        some (cleanWhole c.wholeText ++ '.' :: fracText c.fraction) := by
      unfold compositeText
      rw [hh]
      rfl
    unfold ScrapePrice
    rw [hct]
    simp only [if_pos (compositeText_ne_nil hct), hp]
  refine ⟨main, ?_, ?_⟩
  · exact main docComp99 ⟨str "1,234", some (str "99")⟩ (123499/100) rfl
      (parsePrice_concrete (t := str "1234.99")
        (r := ⟨false, 1234, 99, 2, false, 0⟩) (by decide) (by decide)
        (by norm_num [floatVal]))
  · exact main docCompNoFrac ⟨str "1,234", none⟩ 1234 rfl
      (parsePrice_concrete (t := str "1234.00")
        (r := ⟨false, 1234, 0, 2, false, 0⟩) (by decide) (by decide)
        (by norm_num [floatVal]))

/-- C6, witness: the composite combination applied to the concrete
fraction-bearing document. -/
theorem scrape_composite_combine_witness :
    ScrapePrice docComp99 = some (123499/100, compositeStrategyId) :=
  scrape_composite_combine.1 docComp99 ⟨str "1,234", some (str "99")⟩
    (123499/100) rfl
    (parsePrice_concrete (t := str "1234.99")
      (r := ⟨false, 1234, 99, 2, false, 0⟩) (by decide) (by decide)
      (by norm_num [floatVal]))

end PriceTracker
